import Mathlib

/-!
# redirector: the slot table, connection acceptance, and the relay and eviction pass

A shallow embedding of `redirector.c`.  The program is one `main`: start-up
validation (lines 78-156) followed by an endless polling loop (lines 160-247)
over a fixed array `clients[MAXCLIENTS]`.

Conventions of the embedding

* `SOCKET` is `int` (line 45), modelled as `Int`; `time_t` is modelled as `Int`.
* `inuse` is an `int` that is only ever assigned `0` or `1` and only ever
  tested for zero, modelled as `Bool`.
* Every system call is replaced by its outcome, supplied by the caller of the
  model (what `accept`, `socket`, `bind`, `connect`, `recv`, `send` returned), and
  every call the program makes is recorded, in program order, in a list of
  `Event`s.
* The array `clients` is a `List client_t`; the loops run the index from `0`
  to `MAXCLIENTS - 1` exactly as in the source.
* `buf` is the single 4096-byte buffer of `main`, shared by all slots; bytes are
  natural numbers.
-/

namespace Redirector

/-- Socket handles: `typedef int SOCKET;` (line 45). -/
abbrev SOCKET := Int

/-- Bytes moved through `buf`. -/
abbrev Byte := Nat

/-- The `struct client_t` of lines 52-57. -/
structure client_t where
  inuse : Bool
  client_sock : SOCKET
  out_sock : SOCKET
  activity : Int
deriving DecidableEq, Repr

/-- Line 59: `#define MAXCLIENTS 20`. -/
def MAXCLIENTS : Nat := 20

/-- Line 60: `#define IDLETIMEOUT 300`. -/
def IDLETIMEOUT : Int := 300

/-- The system calls made by the polling loop, with the values they returned. -/
inductive Event where
  | accept (ret : SOCKET)
  | socket (ret : SOCKET)
  | bind (s : SOCKET) (ret : Int)
  | connect (s : SOCKET) (ret : Int)
  | closesocket (s : SOCKET)
  | recv (s : SOCKET) (ret : Int) (data : List Byte)
  | send (s : SOCKET) (msg : List Byte) (ret : Int)
deriving DecidableEq, Repr

/-- What the calls of one connection acceptance returned: `accept` (line 188),
`socket` (line 196), `bind` (line 200) and `connect` (line 205).  A call that
the program does not reach leaves its field unused. -/
structure AcceptOutcome where
  accepted : SOCKET
  sock : SOCKET
  bindRet : Int
  connectRet : Int
deriving DecidableEq, Repr

/-- What the calls made while servicing one slot returned: `recv` returned
`recvRet` and, when that is positive, stored `recvData` at the start of `buf`;
`send` returned `sendRet`. -/
structure RelayOutcome where
  recvRet : Int
  recvData : List Byte
  sendRet : Int
deriving DecidableEq, Repr

/-- Lines 190-191: `for (i = 0; i < MAXCLIENTS; i++) if (!clients[i].inuse) break;`
started at index `i` with `n` indices left to look at; the value of `i` after
the loop. -/
def scanFree (clients : List client_t) : Nat → Nat → Nat
  | 0, i => i
  | n + 1, i =>
    match clients[i]? with
    | some c => if !c.inuse then i else scanFree clients n (i + 1)
    | none => scanFree clients n (i + 1)

/-- The index `i` left by the scan of lines 190-191 (`MAXCLIENTS` when no slot
is free). -/
def firstFree (clients : List client_t) : Nat :=
  scanFree clients MAXCLIENTS 0

/-- Lines 186-220: the connection acceptance of one loop iteration.  Returns the
table afterwards and the calls made. -/
def acceptStep (now : Int) (fdsr : SOCKET → Bool) (l_sock : SOCKET)
    (clients : List client_t) (o : AcceptOutcome) : List client_t × List Event :=
  if fdsr l_sock then
    let client_sock := o.accepted
    let i := firstFree clients
    if i < MAXCLIENTS then
      let out_sock := o.sock
      if out_sock = -1 then
        (clients, [Event.accept client_sock, Event.socket out_sock,
                   Event.closesocket client_sock])
      else if o.bindRet ≠ 0 then
        (clients, [Event.accept client_sock, Event.socket out_sock,
                   Event.bind out_sock o.bindRet,
                   Event.closesocket client_sock, Event.closesocket out_sock])
      else if o.connectRet ≠ 0 then
        (clients, [Event.accept client_sock, Event.socket out_sock,
                   Event.bind out_sock o.bindRet, Event.connect out_sock o.connectRet,
                   Event.closesocket client_sock, Event.closesocket out_sock])
      else
        (clients.set i
            { inuse := true, client_sock := client_sock, out_sock := out_sock,
              activity := now },
         [Event.accept client_sock, Event.socket out_sock,
          Event.bind out_sock o.bindRet, Event.connect out_sock o.connectRet])
    else
      (clients, [Event.accept client_sock, Event.closesocket client_sock])
  else
    (clients, [])

/-- The effect of `recv(s, buf, sizeof(buf), 0)` on `buf` (`char buf[4096]`,
line 65) when it returns `ret > 0` and the bytes `data`: they overwrite the
start of the buffer. -/
def recvInto (buf : List Byte) (data : List Byte) : List Byte :=
  data ++ buf.drop data.length

/-- Lines 230-232 and 234-236: `recv` from `src` into `buf`, then, only when
the count is positive, `send` of that many bytes of `buf` to `dst`.  Returns
`closeneeded`, the buffer afterwards and the calls made. -/
def transfer (src dst : SOCKET) (ro : RelayOutcome) (buf : List Byte) :
    Bool × List Byte × List Event :=
  let num_bytes := ro.recvRet
  if num_bytes ≤ 0 then
    (true, buf, [Event.recv src num_bytes []])
  else
    let buf1 := recvInto buf ro.recvData
    let msg := buf1.take num_bytes.toNat
    (decide (ro.sendRet ≤ 0), buf1,
      [Event.recv src num_bytes ro.recvData, Event.send dst msg ro.sendRet])

/-- Lines 240-244: `if (closeneeded) { closesocket(client_sock);
closesocket(out_sock); inuse = 0; }` at the end of the loop body, after the
calls `ev`. -/
def finish (closeneeded : Bool) (c : client_t) (buf : List Byte) (ev : List Event) :
    client_t × List Byte × List Event :=
  if closeneeded then
    ({ c with inuse := false }, buf,
      ev ++ [Event.closesocket c.client_sock, Event.closesocket c.out_sock])
  else
    (c, buf, ev)

/-- Lines 226-244: the body of the service loop for one slot `c`.  Returns the
slot afterwards, the buffer afterwards and the calls made. -/
def service (now : Int) (fdsr : SOCKET → Bool) (ro : RelayOutcome) (c : client_t)
    (buf : List Byte) : client_t × List Byte × List Event :=
  if !c.inuse then
    (c, buf, [])
  else if fdsr c.client_sock then
    let t := transfer c.client_sock c.out_sock ro buf
    finish t.1 (if t.1 then c else { c with activity := now }) t.2.1 t.2.2
  else if fdsr c.out_sock then
    let t := transfer c.out_sock c.client_sock ro buf
    finish t.1 (if t.1 then c else { c with activity := now }) t.2.1 t.2.2
  else
    finish (decide (now - c.activity > IDLETIMEOUT)) c buf []

/-- The state the service loop threads through its iterations. -/
structure LoopState where
  clients : List client_t
  buf : List Byte
  trace : List Event
deriving DecidableEq, Repr

/-- One iteration of the `for` loop of lines 224-245, at index `i`; `ro i` is
what the calls made for slot `i` returned. -/
def serviceAt (now : Int) (fdsr : SOCKET → Bool) (ro : Nat → RelayOutcome) (i : Nat)
    (st : LoopState) : LoopState :=
  match st.clients[i]? with
  | none => st
  | some c =>
    let r := service now fdsr (ro i) c st.buf
    { clients := st.clients.set i r.1, buf := r.2.1, trace := st.trace ++ r.2.2 }

/-- Lines 224-245: `for (i = 0; i < MAXCLIENTS; i++) { ... }`. -/
def relayPass (now : Int) (fdsr : SOCKET → Bool) (ro : Nat → RelayOutcome)
    (st : LoopState) : LoopState :=
  (List.range MAXCLIENTS).foldl (fun s i => serviceAt now fdsr ro i s) st

/-- Lines 168-179: the descriptor set handed to `select` and `maxsock`: the
listener, then both sockets of every slot in use. -/
def buildFdSet (l_sock : SOCKET) (clients : List client_t) : List SOCKET × Int :=
  (List.range MAXCLIENTS).foldl
    (fun acc i =>
      match clients[i]? with
      | none => acc
      | some c =>
        if c.inuse then
          let m1 := if c.client_sock > acc.2 then c.client_sock else acc.2
          let m2 := if c.out_sock > m1 then c.out_sock else m1
          (acc.1 ++ [c.client_sock, c.out_sock], m2)
        else acc)
    ([l_sock], l_sock)

/-- What the calls of one iteration of the polling loop returned: `time`
(line 165), `select` (line 180: its return value, and which descriptors the
system reports readable), the acceptance calls, and the calls made for each
slot index. -/
structure IterOutcome where
  now : Int
  selectRet : Int
  readable : SOCKET → Bool
  acc : AcceptOutcome
  relay : Nat → RelayOutcome

/-- The descriptor set after `select` (line 180): the members of the set
built before the call, below `maxsock + 1`, that are readable. -/
def selected (l_sock : SOCKET) (clients : List client_t) (readable : SOCKET → Bool) :
    SOCKET → Bool :=
  fun s =>
    decide (s ∈ (buildFdSet l_sock clients).1) &&
      decide (s < (buildFdSet l_sock clients).2 + 1) && readable s

/-- Lines 161-246: one iteration of the `while (1)` loop.  `Except.error 30`
is the `return 30` of line 181. -/
def iteration (l_sock : SOCKET) (o : IterOutcome) (st : LoopState) :
    Except Int LoopState :=
  if o.selectRet < 0 then
    Except.error 30
  else
    let fdsr := selected l_sock st.clients o.readable
    let a := acceptStep o.now fdsr l_sock st.clients o.acc
    Except.ok
      (relayPass o.now fdsr o.relay
        { clients := a.1, buf := st.buf, trace := st.trace ++ a.2 })

/-- The polling loop run for as many iterations as outcomes are supplied. -/
def run (l_sock : SOCKET) : List IterOutcome → LoopState → Except Int LoopState
  | [], st => Except.ok st
  | o :: os, st =>
    match iteration l_sock o st with
    | Except.error e => Except.error e
    | Except.ok st1 => run l_sock os st1

/-- Lines 86-87: `for (i = 0; i < MAXCLIENTS; i++) clients[i].inuse = 0;` on the
array as it lies in memory; the other fields are not written. -/
def resetClients (mem : List client_t) : List client_t :=
  (List.range MAXCLIENTS).foldl
    (fun cl i =>
      match cl[i]? with
      | none => cl
      | some c => cl.set i { c with inuse := false })
    mem

/-- The table at the first iteration when the array's memory was all zero. -/
def initialClients : List client_t :=
  resetClients
    (List.replicate MAXCLIENTS
      { inuse := false, client_sock := 0, out_sock := 0, activity := 0 })

/-- `INADDR_NONE` of `<netinet/in.h>`: the value `inet_addr` returns for a
string that is not a dotted-quad address. -/
def INADDR_NONE : Nat := 0xffffffff

/-- The cast `(unsigned short)` applied to a `long`. -/
def toUShort (x : Int) : Nat := (x % 65536).toNat

/-- `htons` on a little-endian host: the two bytes exchanged. -/
def htons (x : Nat) : Nat := (x % 256) * 256 + (x / 256) % 256

/-- What the library and system calls of the start-up code returned: `argc`,
`atol(argv[2])`, `inet_addr(argv[1])`, `gethostbyname(argv[1])` (`none` for
`NULL`, else the address), the same three for the target (`argv[4]`,
`argv[3]`), and `socket`, `bind`, `listen`, `fork`. -/
structure StartupOutcome where
  argc : Int
  atolLPort : Int
  inetLAddr : Nat
  hostL : Option Nat
  atolRPort : Int
  inetRAddr : Nat
  hostR : Option Nat
  sock : SOCKET
  bindRet : Int
  listenRet : Int
  forkRet : Int
deriving DecidableEq, Repr

/-- How the start-up code ends: the process returns from `main` with a status,
or it enters the polling loop with the listener socket, the listener address
(used, with port 0, to bind outgoing sockets) and the target address and
port. -/
inductive StartupResult where
  | exit (status : Int)
  | loop (l_sock : SOCKET) (laddr : Nat) (out_addr : Nat) (out_port : Nat)
deriving DecidableEq, Repr

/-- Lines 78-156 of `main`, Unix branch. -/
def startup (o : StartupOutcome) : StartupResult :=
  if o.argc ≠ 5 then StartupResult.exit 30
  else
    let lport := htons (toUShort o.atolLPort)
    if lport = 0 then StartupResult.exit 20
    else if o.inetLAddr = INADDR_NONE ∧ o.hostL = none then StartupResult.exit 20
    else
      let laddr := if o.inetLAddr = INADDR_NONE then o.hostL.getD 0 else o.inetLAddr
      let rport := htons (toUShort o.atolRPort)
      if rport = 0 then StartupResult.exit 25
      else if o.inetRAddr = INADDR_NONE ∧ o.hostR = none then StartupResult.exit 25
      else
        let raddr := if o.inetRAddr = INADDR_NONE then o.hostR.getD 0 else o.inetRAddr
        if o.sock = -1 then StartupResult.exit 20
        else if o.bindRet ≠ 0 then StartupResult.exit 20
        else if o.listenRet ≠ 0 then StartupResult.exit 20
        else if o.forkRet = -1 then StartupResult.exit 20
        else if o.forkRet > 0 then StartupResult.exit 0
        else StartupResult.loop o.sock laddr raddr rport

/-- The handles passed to `closesocket`, in call order. -/
def closedSockets : List Event → List SOCKET
  | [] => []
  | Event.closesocket s :: es => s :: closedSockets es
  | _ :: es => closedSockets es

/-- The handles returned by `socket`, in call order. -/
def createdSockets : List Event → List SOCKET
  | [] => []
  | Event.socket s :: es => s :: createdSockets es
  | _ :: es => createdSockets es

/-- The descriptors open after the calls `es`, when `opn` were open before: a
successful `accept` or `socket` opens the handle it returns, `closesocket`
closes its argument. -/
def openAfter (opn : List SOCKET) : List Event → List SOCKET
  | [] => opn
  | Event.accept s :: es => openAfter (if s = -1 then opn else s :: opn) es
  | Event.socket s :: es => openAfter (if s = -1 then opn else s :: opn) es
  | Event.closesocket s :: es => openAfter (opn.filter fun h => decide (h ≠ s)) es
  | Event.bind _ _ :: es => openAfter opn es
  | Event.connect _ _ :: es => openAfter opn es
  | Event.recv _ _ _ :: es => openAfter opn es
  | Event.send _ _ _ :: es => openAfter opn es

/-- The system never hands out a descriptor that is already open: every
`accept` and `socket` among the calls `es` returned -1 or a handle that was not
open at the time of the call. -/
def freshHandles (opn : List SOCKET) : List Event → Prop
  | [] => True
  | Event.accept s :: es =>
    (s = -1 ∨ s ∉ opn) ∧ freshHandles (if s = -1 then opn else s :: opn) es
  | Event.socket s :: es =>
    (s = -1 ∨ s ∉ opn) ∧ freshHandles (if s = -1 then opn else s :: opn) es
  | Event.closesocket s :: es => freshHandles (opn.filter fun h => decide (h ≠ s)) es
  | Event.bind _ _ :: es => freshHandles opn es
  | Event.connect _ _ :: es => freshHandles opn es
  | Event.recv _ _ _ :: es => freshHandles opn es
  | Event.send _ _ _ :: es => freshHandles opn es

/-- No `accept` among the calls `es` failed. -/
def acceptsSucceed (es : List Event) : Prop :=
  ∀ s, Event.accept s ∈ es → s ≠ -1

/-- The invariant of the slot table with respect to the open descriptors
`opn`: both handles of every slot in use are non-error handles of open
sockets, they differ from each other, and they differ from the handles of
every other slot in use. -/
def tableValid (opn : List SOCKET) (clients : List client_t) : Prop :=
  ∀ (i : Nat) (c : client_t), clients[i]? = some c → c.inuse = true →
    c.client_sock ≠ -1 ∧ c.out_sock ≠ -1 ∧ c.client_sock ∈ opn ∧ c.out_sock ∈ opn ∧
    c.client_sock ≠ c.out_sock ∧
    ∀ (j : Nat) (d : client_t), j ≠ i → clients[j]? = some d → d.inuse = true →
      d.client_sock ≠ c.client_sock ∧ d.client_sock ≠ c.out_sock ∧
      d.out_sock ≠ c.client_sock ∧ d.out_sock ≠ c.out_sock

/-- What one pass of the polling loop presents to a slot: the time, the
descriptor set after `select`, what the slot's `recv` and `send` return, and
the contents of the shared `buf` as the slots serviced before left it. -/
structure PassInput where
  now : Int
  fdsr : SOCKET → Bool
  ro : RelayOutcome
  buf : List Byte

/-- The slot `c` serviced in a sequence of passes: the slot at the end and
all calls made for it, in order. -/
def slotRun (c : client_t) : List PassInput → client_t × List Event
  | [] => (c, [])
  | p :: ps =>
    ((slotRun (service p.now p.fdsr p.ro c p.buf).1 ps).1,
     (service p.now p.fdsr p.ro c p.buf).2.2 ++
       (slotRun (service p.now p.fdsr p.ro c p.buf).1 ps).2)

/-- The slot is in use before the first pass and after every pass of the
sequence. -/
def staysInUse (c : client_t) : List PassInput → Bool
  | [] => c.inuse
  | p :: ps => c.inuse && staysInUse (service p.now p.fdsr p.ro c p.buf).1 ps

/-- Start-up outcomes in which every call succeeds: listener `127.0.0.1:8080`,
target `10.0.0.1:80`, listener socket 3, and `fork` returning 0 (the child). -/
def goodStartup : StartupOutcome :=
  { argc := 5, atolLPort := 8080, inetLAddr := 0x0100007f, hostL := none,
    atolRPort := 80, inetRAddr := 0x0100000a, hostR := none,
    sock := 3, bindRet := 0, listenRet := 0, forkRet := 0 }

/-- The slot at index `i` after a run, when the loop has not returned. -/
def slotAfter (r : Except Int LoopState) (i : Nat) : Option client_t :=
  match r with
  | Except.ok st => st.clients[i]?
  | Except.error _ => none

/-- One loop iteration at time 1000 in which `select` reports the listener 3
readable, `accept` fails (returns -1), and `socket` returns 4, `bind` and
`connect` return 0. -/
def acceptFails : IterOutcome :=
  { now := 1000, selectRet := 1, readable := fun s => decide (s = 3),
    acc := ⟨-1, 4, 0, 0⟩, relay := fun _ => ⟨0, [], 0⟩ }

/-- One loop iteration at time 1000 in which `select` reports the listener 3
readable, `accept` returns 4, `socket` returns 5, `bind` and `connect` return
0. -/
def acceptWorks : IterOutcome :=
  { now := 1000, selectRet := 1, readable := fun s => decide (s = 3),
    acc := ⟨4, 5, 0, 0⟩, relay := fun _ => ⟨0, [], 0⟩ }

/-- The state after the iteration `acceptWorks` from the all-free table. -/
def afterAcceptWorks : LoopState :=
  { clients := initialClients.set 0 ⟨true, 4, 5, 1000⟩, buf := [],
    trace := [Event.accept 4, Event.socket 5, Event.bind 5 0, Event.connect 5 0] }

/-- A table with every slot in use: slot `i` holds the handles `2 i + 10` and
`2 i + 11`. -/
def fullTable : List client_t :=
  (List.range MAXCLIENTS).map fun i =>
    { inuse := true, client_sock := 2 * i + 10, out_sock := 2 * i + 11, activity := 0 }

/-- The full table with slots 3 and 7 freed. -/
def twoFreeTable : List client_t :=
  (fullTable.set 3 { inuse := false, client_sock := 16, out_sock := 17, activity := 0 }).set 7
    { inuse := false, client_sock := 24, out_sock := 25, activity := 0 }

/-! ## The free-slot scan -/

/-- The scan of lines 190-191 started at `i` with `n` indices left stops at an
index `k` in `[i, i + n]`; every slot it passed over is in use; and when it
stopped before `i + n`, slot `k` exists and is free. -/
theorem scanFree_spec (clients : List client_t) (n i : Nat) :
    i ≤ scanFree clients n i ∧ scanFree clients n i ≤ i + n ∧
    (∀ j c, i ≤ j → j < scanFree clients n i → clients[j]? = some c → c.inuse = true) ∧
    (scanFree clients n i < i + n →
      ∃ c, clients[scanFree clients n i]? = some c ∧ c.inuse = false) := by
  induction n generalizing i with
  | zero =>
    refine ⟨by simp [scanFree], by simp [scanFree], ?_, ?_⟩
    · intro j c h1 h2; simp [scanFree] at h2; omega
    · intro h; simp [scanFree] at h
  | succ n ih =>
    obtain ⟨a1, a2, a3, a4⟩ := ih (i + 1)
    cases hc : clients[i]? with
    | none =>
      have e : scanFree clients (n + 1) i = scanFree clients n (i + 1) := by
        simp [scanFree, hc]
      rw [e]
      refine ⟨by omega, by omega, ?_, ?_⟩
      · intro j c h1 h2 h3
        rcases Nat.eq_or_lt_of_le h1 with h | h
        · subst h; rw [hc] at h3; cases h3
        · exact a3 j c h h2 h3
      · intro h; exact a4 (by omega)
    | some c0 =>
      cases hu : c0.inuse with
      | false =>
        have e : scanFree clients (n + 1) i = i := by
          simp [scanFree, hc, hu]
        rw [e]
        refine ⟨le_refl _, by omega, ?_, ?_⟩
        · intro j c h1 h2; omega
        · intro _; exact ⟨c0, hc, hu⟩
      | true =>
        have e : scanFree clients (n + 1) i = scanFree clients n (i + 1) := by
          simp [scanFree, hc, hu]
        rw [e]
        refine ⟨by omega, by omega, ?_, ?_⟩
        · intro j c h1 h2 h3
          rcases Nat.eq_or_lt_of_le h1 with h | h
          · subst h; rw [hc] at h3; cases h3; exact hu
          · exact a3 j c h h2 h3
        · intro h; exact a4 (by omega)

/-- When every one of the `MAXCLIENTS` slots is in use, the scan runs off the
end: `i` is `MAXCLIENTS`. -/
theorem firstFree_full (clients : List client_t)
    (hfull : ∀ i, i < MAXCLIENTS → ∃ c, clients[i]? = some c ∧ c.inuse = true) :
    firstFree clients = MAXCLIENTS := by
  obtain ⟨_, h2, _, h4⟩ := scanFree_spec clients MAXCLIENTS 0
  unfold firstFree
  by_contra hne
  have hlt : scanFree clients MAXCLIENTS 0 < 0 + MAXCLIENTS := by omega
  obtain ⟨c, hc, hu⟩ := h4 hlt
  obtain ⟨d, hd, hdu⟩ := hfull (scanFree clients MAXCLIENTS 0) (by omega)
  rw [hc] at hd
  cases hd
  rw [hdu] at hu
  cases hu

/-- When some slot below `MAXCLIENTS` is free, the scan stops at the lowest
free index. -/
theorem firstFree_lowest (clients : List client_t) (j : Nat) (c : client_t)
    (hj : j < MAXCLIENTS) (hc : clients[j]? = some c) (hfree : c.inuse = false) :
    firstFree clients ≤ j ∧
    (∃ d, clients[firstFree clients]? = some d ∧ d.inuse = false) ∧
    (∀ k d, k < firstFree clients → clients[k]? = some d → d.inuse = true) := by
  obtain ⟨_, h2, h3, h4⟩ := scanFree_spec clients MAXCLIENTS 0
  unfold firstFree
  have hle : scanFree clients MAXCLIENTS 0 ≤ j := by
    by_contra hgt
    have := h3 j c (Nat.zero_le _) (by omega) hc
    rw [hfree] at this
    cases this
  exact ⟨hle, h4 (by omega), fun k d hk hd => h3 k d (Nat.zero_le _) hk hd⟩

/-! ## Connection acceptance (lines 186-220) -/

/-- C1.  Admission control at capacity: when all `MAXCLIENTS` slots are in use
and the listener is ready, the acceptance step leaves the table as it was
(no slot allocated, every field of every slot unchanged) and makes exactly two
calls, `accept` and `closesocket` of the handle `accept` returned; in
particular it never calls `socket`, so no outbound socket is opened. -/
theorem accept_at_capacity (now : Int) (fdsr : SOCKET → Bool) (l_sock : SOCKET)
    (clients : List client_t) (o : AcceptOutcome)
    (hfull : ∀ i, i < MAXCLIENTS → ∃ c, clients[i]? = some c ∧ c.inuse = true)
    (hready : fdsr l_sock = true) :
    (acceptStep now fdsr l_sock clients o).1 = clients ∧
    (acceptStep now fdsr l_sock clients o).2 =
      [Event.accept o.accepted, Event.closesocket o.accepted] ∧
    closedSockets (acceptStep now fdsr l_sock clients o).2 = [o.accepted] ∧
    createdSockets (acceptStep now fdsr l_sock clients o).2 = [] := by
  have hff := firstFree_full clients hfull
  simp [acceptStep, hready, hff, closedSockets, createdSockets]

/-- C2.  Lowest free slot wins: on a table of `MAXCLIENTS` slots with a free
slot, when the listener is ready and `socket`, `bind` and `connect` all
succeed, there is an index `i` that is free, has only slots in use below it,
and the table afterwards is the old table with slot `i` replaced by
`(inuse = 1, client_sock = accepted socket, out_sock = new socket,
activity = now)`: slot `i` holds those values and every other slot is as
before. -/
theorem accept_lowest_free (now : Int) (fdsr : SOCKET → Bool) (l_sock : SOCKET)
    (clients : List client_t) (o : AcceptOutcome)
    (hlen : clients.length = MAXCLIENTS)
    (hfree : ∃ c ∈ clients, c.inuse = false)
    (hready : fdsr l_sock = true)
    (hsock : o.sock ≠ -1) (hbind : o.bindRet = 0) (hconn : o.connectRet = 0) :
    ∃ i, i < MAXCLIENTS ∧
      (∃ d, clients[i]? = some d ∧ d.inuse = false) ∧
      (∀ k d, k < i → clients[k]? = some d → d.inuse = true) ∧
      (acceptStep now fdsr l_sock clients o).1 =
        clients.set i
          { inuse := true, client_sock := o.accepted, out_sock := o.sock, activity := now } ∧
      (acceptStep now fdsr l_sock clients o).1[i]? =
        some { inuse := true, client_sock := o.accepted, out_sock := o.sock,
               activity := now } ∧
      (∀ j, j ≠ i → (acceptStep now fdsr l_sock clients o).1[j]? = clients[j]?) := by
  obtain ⟨c, hmem, hc⟩ := hfree
  obtain ⟨j, hj⟩ := List.mem_iff_getElem?.mp hmem
  have hjlt : j < MAXCLIENTS := by
    obtain ⟨h, _⟩ := List.getElem?_eq_some.mp hj
    omega
  obtain ⟨h1, h2, h3⟩ := firstFree_lowest clients j c hjlt hj hc
  have hlt : firstFree clients < MAXCLIENTS := by omega
  have hstep : (acceptStep now fdsr l_sock clients o).1 =
      clients.set (firstFree clients)
        { inuse := true, client_sock := o.accepted, out_sock := o.sock, activity := now } := by
    simp [acceptStep, hready, hlt, hsock, hbind, hconn]
  refine ⟨firstFree clients, hlt, h2, h3, hstep, ?_, ?_⟩
  · rw [hstep, List.getElem?_set_self (by omega)]
  · intro k hk
    rw [hstep, List.getElem?_set_ne (Ne.symm hk)]

/-- C3.  Acceptance failure is atomic: on a table with a free slot, when the
listener is ready and `socket`, `bind` or `connect` fails, the table is left
exactly as it was, and the sockets closed are the accepted socket alone when
`socket` failed (no outbound socket exists), and the accepted socket followed
by the outbound socket when `bind` or `connect` failed. -/
theorem accept_failure_atomic (now : Int) (fdsr : SOCKET → Bool) (l_sock : SOCKET)
    (clients : List client_t) (o : AcceptOutcome)
    (hfree : ∃ j c, j < MAXCLIENTS ∧ clients[j]? = some c ∧ c.inuse = false)
    (hready : fdsr l_sock = true)
    (hfail : o.sock = -1 ∨ o.bindRet ≠ 0 ∨ o.connectRet ≠ 0) :
    (acceptStep now fdsr l_sock clients o).1 = clients ∧
    (o.sock = -1 →
      closedSockets (acceptStep now fdsr l_sock clients o).2 = [o.accepted]) ∧
    (o.sock ≠ -1 →
      createdSockets (acceptStep now fdsr l_sock clients o).2 = [o.sock] ∧
      closedSockets (acceptStep now fdsr l_sock clients o).2 = [o.accepted, o.sock]) := by
  obtain ⟨j, c, hj, hc, hu⟩ := hfree
  obtain ⟨h1, _, _⟩ := firstFree_lowest clients j c hj hc hu
  have hlt : firstFree clients < MAXCLIENTS := by omega
  by_cases hs : o.sock = -1
  · simp [acceptStep, hready, hlt, hs, closedSockets, createdSockets]
  · by_cases hb : o.bindRet = 0
    · have hcn : o.connectRet ≠ 0 := by
        rcases hfail with h | h | h
        · exact absurd h hs
        · exact absurd hb h
        · exact h
      simp [acceptStep, hready, hlt, hs, hb, hcn, closedSockets, createdSockets]
    · simp [acceptStep, hready, hlt, hs, hb, closedSockets, createdSockets]

/-- Every slot of `fullTable` is in use. -/
theorem fullTable_full :
    ∀ i, i < MAXCLIENTS → ∃ c, fullTable[i]? = some c ∧ c.inuse = true := by
  intro i hi
  have hi2 : i < 20 := hi
  interval_cases i <;> exact ⟨_, rfl, rfl⟩

/-- C1 at a concrete input: the full table, listener 3 ready, `accept`
returning 50. -/
theorem accept_at_capacity_witness :
    (∀ i, i < MAXCLIENTS → ∃ c, fullTable[i]? = some c ∧ c.inuse = true) ∧
    (acceptStep 1000 (fun s => decide (s = 3)) 3 fullTable ⟨50, 51, 0, 0⟩).1 = fullTable ∧
    (acceptStep 1000 (fun s => decide (s = 3)) 3 fullTable ⟨50, 51, 0, 0⟩).2 =
      [Event.accept 50, Event.closesocket 50] ∧
    closedSockets (acceptStep 1000 (fun s => decide (s = 3)) 3 fullTable ⟨50, 51, 0, 0⟩).2 =
      [50] ∧
    createdSockets (acceptStep 1000 (fun s => decide (s = 3)) 3 fullTable ⟨50, 51, 0, 0⟩).2 =
      [] :=
  ⟨fullTable_full,
   accept_at_capacity 1000 (fun s => decide (s = 3)) 3 fullTable ⟨50, 51, 0, 0⟩
     fullTable_full rfl⟩

/-- C2 at a concrete input: slots 3 and 7 free, the new connection lands in
slot 3 and slot 7 stays free. -/
theorem accept_lowest_free_witness :
    (acceptStep 1000 (fun s => decide (s = 3)) 3 twoFreeTable ⟨50, 51, 0, 0⟩).1[3]? =
      some { inuse := true, client_sock := 50, out_sock := 51, activity := 1000 } ∧
    (acceptStep 1000 (fun s => decide (s = 3)) 3 twoFreeTable ⟨50, 51, 0, 0⟩).1[7]? =
      twoFreeTable[7]? ∧
    ∃ i, i < MAXCLIENTS ∧
      (∃ d, twoFreeTable[i]? = some d ∧ d.inuse = false) ∧
      (∀ k d, k < i → twoFreeTable[k]? = some d → d.inuse = true) ∧
      (acceptStep 1000 (fun s => decide (s = 3)) 3 twoFreeTable ⟨50, 51, 0, 0⟩).1 =
        twoFreeTable.set i
          { inuse := true, client_sock := 50, out_sock := 51, activity := 1000 } ∧
      (acceptStep 1000 (fun s => decide (s = 3)) 3 twoFreeTable ⟨50, 51, 0, 0⟩).1[i]? =
        some { inuse := true, client_sock := 50, out_sock := 51, activity := 1000 } ∧
      (∀ j, j ≠ i →
        (acceptStep 1000 (fun s => decide (s = 3)) 3 twoFreeTable ⟨50, 51, 0, 0⟩).1[j]? =
          twoFreeTable[j]?) :=
  ⟨by decide, by decide,
   accept_lowest_free 1000 (fun s => decide (s = 3)) 3 twoFreeTable ⟨50, 51, 0, 0⟩
     (by decide) ⟨⟨false, 16, 17, 0⟩, by decide, rfl⟩ rfl (by decide) rfl rfl⟩

/-- C3 at a concrete input: slots 3 and 7 free, `connect` returns -1; the
table is unchanged and both sockets of the attempt are closed. -/
theorem accept_failure_atomic_witness :
    (acceptStep 1000 (fun s => decide (s = 3)) 3 twoFreeTable ⟨50, 51, 0, -1⟩).1 =
      twoFreeTable ∧
    ((51 : Int) = -1 →
      closedSockets
        (acceptStep 1000 (fun s => decide (s = 3)) 3 twoFreeTable ⟨50, 51, 0, -1⟩).2 = [50]) ∧
    ((51 : Int) ≠ -1 →
      createdSockets
        (acceptStep 1000 (fun s => decide (s = 3)) 3 twoFreeTable ⟨50, 51, 0, -1⟩).2 = [51] ∧
      closedSockets
        (acceptStep 1000 (fun s => decide (s = 3)) 3 twoFreeTable ⟨50, 51, 0, -1⟩).2 =
          [50, 51]) :=
  accept_failure_atomic 1000 (fun s => decide (s = 3)) 3 twoFreeTable ⟨50, 51, 0, -1⟩
    ⟨3, _, by decide, rfl, rfl⟩ rfl (Or.inr (Or.inr (by decide)))

/-! ## Servicing one slot (lines 226-244) -/

/-- C4.  Eviction on peer close or I/O error: an occupied slot one of whose
sockets is ready is freed exactly when `recv` returned zero or negative, or
`recv` returned a positive count and the `send` of those bytes returned zero
or negative (the failure test of lines 231 and 235).  When it is freed, the
calls to `closesocket` of this service are exactly its two sockets; otherwise
the slot afterwards is the old slot with `activity = now` (still in use, same
two sockets) and nothing is closed. -/
theorem service_ready_eviction (now : Int) (fdsr : SOCKET → Bool) (ro : RelayOutcome)
    (c : client_t) (buf : List Byte) (hin : c.inuse = true)
    (hready : fdsr c.client_sock = true ∨ fdsr c.out_sock = true) :
    ((service now fdsr ro c buf).1.inuse = false ↔
      (ro.recvRet ≤ 0 ∨ (0 < ro.recvRet ∧ ro.sendRet ≤ 0))) ∧
    ((service now fdsr ro c buf).1.inuse = false →
      closedSockets (service now fdsr ro c buf).2.2 = [c.client_sock, c.out_sock]) ∧
    ((service now fdsr ro c buf).1.inuse = true →
      (service now fdsr ro c buf).1 = { c with activity := now } ∧
      closedSockets (service now fdsr ro c buf).2.2 = []) := by
  by_cases h1 : fdsr c.client_sock = true
  · by_cases hr : ro.recvRet ≤ 0
    · simp [service, finish, transfer, hin, h1, hr, closedSockets]
    · by_cases hs : ro.sendRet ≤ 0
      · have hr2 : 0 < ro.recvRet := by omega
        simp [service, finish, transfer, hin, h1, hr, hs, hr2, closedSockets]
      · simp [service, finish, transfer, hin, h1, hr, hs, closedSockets]
  · have h2 : fdsr c.out_sock = true := by
      rcases hready with h | h
      · exact absurd h h1
      · exact h
    by_cases hr : ro.recvRet ≤ 0
    · simp [service, finish, transfer, hin, h1, h2, hr, closedSockets]
    · by_cases hs : ro.sendRet ≤ 0
      · have hr2 : 0 < ro.recvRet := by omega
        simp [service, finish, transfer, hin, h1, h2, hr, hs, hr2, closedSockets]
      · simp [service, finish, transfer, hin, h1, h2, hr, hs, closedSockets]

/-- C5.  Idle eviction threshold: an occupied slot neither of whose sockets is
ready is freed exactly when `now - activity > 300`; then the calls to
`closesocket` are exactly its two sockets; and when `now - activity ≤ 300`
the slot is returned unchanged in every field and no call is made. -/
theorem service_idle_threshold (now : Int) (fdsr : SOCKET → Bool) (ro : RelayOutcome)
    (c : client_t) (buf : List Byte) (hin : c.inuse = true)
    (h1 : fdsr c.client_sock = false) (h2 : fdsr c.out_sock = false) :
    ((service now fdsr ro c buf).1.inuse = false ↔ now - c.activity > 300) ∧
    (now - c.activity > 300 →
      (service now fdsr ro c buf).1.inuse = false ∧
      (service now fdsr ro c buf).2.2 =
        [Event.closesocket c.client_sock, Event.closesocket c.out_sock]) ∧
    (now - c.activity ≤ 300 →
      (service now fdsr ro c buf).1 = c ∧ (service now fdsr ro c buf).2.2 = []) := by
  by_cases hi : now - c.activity > 300
  · have hi2 : ¬ (now - c.activity ≤ 300) := by omega
    simp [service, finish, hin, h1, h2, IDLETIMEOUT, hi, hi2]
  · have hi2 : now - c.activity ≤ 300 := by omega
    simp [service, finish, hin, h1, h2, IDLETIMEOUT, hi, hi2]

/-- C4 at a concrete input: slot `(5, 6)` with socket 5 ready; `recv` returns
3 bytes and `send` returns -1, so the slot is freed and both sockets are
closed. -/
theorem service_ready_eviction_witness :
    ((service 1000 (fun s => decide (s = 5)) ⟨3, [7, 8, 9], -1⟩ ⟨true, 5, 6, 990⟩ []).1.inuse
        = false ↔ ((3 : Int) ≤ 0 ∨ ((0 : Int) < 3 ∧ (-1 : Int) ≤ 0))) ∧
    ((service 1000 (fun s => decide (s = 5)) ⟨3, [7, 8, 9], -1⟩ ⟨true, 5, 6, 990⟩ []).1.inuse
        = false →
      closedSockets
        (service 1000 (fun s => decide (s = 5)) ⟨3, [7, 8, 9], -1⟩ ⟨true, 5, 6, 990⟩ []).2.2
        = [5, 6]) ∧
    ((service 1000 (fun s => decide (s = 5)) ⟨3, [7, 8, 9], -1⟩ ⟨true, 5, 6, 990⟩ []).1.inuse
        = true →
      (service 1000 (fun s => decide (s = 5)) ⟨3, [7, 8, 9], -1⟩ ⟨true, 5, 6, 990⟩ []).1
        = { inuse := true, client_sock := 5, out_sock := 6, activity := 1000 } ∧
      closedSockets
        (service 1000 (fun s => decide (s = 5)) ⟨3, [7, 8, 9], -1⟩ ⟨true, 5, 6, 990⟩ []).2.2
        = []) :=
  service_ready_eviction 1000 (fun s => decide (s = 5)) ⟨3, [7, 8, 9], -1⟩ ⟨true, 5, 6, 990⟩ []
    rfl (Or.inl rfl)

/-- C5 at a concrete input: slot `(5, 6)` last active at 699, nothing ready, now
1000: 301 seconds idle, so the slot is freed. -/
theorem service_idle_threshold_witness :
    ((service 1000 (fun _ => false) ⟨0, [], 0⟩ ⟨true, 5, 6, 699⟩ []).1.inuse = false ↔
      (1000 : Int) - 699 > 300) ∧
    ((1000 : Int) - 699 > 300 →
      (service 1000 (fun _ => false) ⟨0, [], 0⟩ ⟨true, 5, 6, 699⟩ []).1.inuse = false ∧
      (service 1000 (fun _ => false) ⟨0, [], 0⟩ ⟨true, 5, 6, 699⟩ []).2.2 =
        [Event.closesocket 5, Event.closesocket 6]) ∧
    ((1000 : Int) - 699 ≤ 300 →
      (service 1000 (fun _ => false) ⟨0, [], 0⟩ ⟨true, 5, 6, 699⟩ []).1 =
        ⟨true, 5, 6, 699⟩ ∧
      (service 1000 (fun _ => false) ⟨0, [], 0⟩ ⟨true, 5, 6, 699⟩ []).2.2 = []) :=
  service_idle_threshold 1000 (fun _ => false) ⟨0, [], 0⟩ ⟨true, 5, 6, 699⟩ [] rfl rfl rfl

/-- The sockets a service of slot `c` closes are among its own two: none when
the slot stays in use or was free, both when it is freed. -/
theorem service_closes_own (now : Int) (fdsr : SOCKET → Bool) (ro : RelayOutcome)
    (c : client_t) (buf : List Byte) :
    ∀ s ∈ closedSockets (service now fdsr ro c buf).2.2,
      c.inuse = true ∧ (s = c.client_sock ∨ s = c.out_sock) := by
  cases hin : c.inuse with
  | false => simp [service, finish, hin, closedSockets]
  | true =>
    by_cases h1 : fdsr c.client_sock = true
    · by_cases hr : ro.recvRet ≤ 0
      · simp [service, finish, transfer, hin, h1, hr, closedSockets]
      · by_cases hs : ro.sendRet ≤ 0
        · simp [service, finish, transfer, hin, h1, hr, hs, closedSockets]
        · simp [service, finish, transfer, hin, h1, hr, hs, closedSockets]
    · by_cases h2 : fdsr c.out_sock = true
      · by_cases hr : ro.recvRet ≤ 0
        · simp [service, finish, transfer, hin, h1, h2, hr, closedSockets]
        · by_cases hs : ro.sendRet ≤ 0
          · simp [service, finish, transfer, hin, h1, h2, hr, hs, closedSockets]
          · simp [service, finish, transfer, hin, h1, h2, hr, hs, closedSockets]
      · by_cases hi : now - c.activity > IDLETIMEOUT
        · simp [service, finish, hin, h1, h2, hi, closedSockets]
        · simp [service, finish, hin, h1, h2, hi, closedSockets]

/-- One step of the service loop at index `i` writes no other index of the
table. -/
theorem serviceAt_other (now : Int) (fdsr : SOCKET → Bool) (ro : Nat → RelayOutcome)
    (i j : Nat) (st : LoopState) (hj : j ≠ i) :
    (serviceAt now fdsr ro i st).clients[j]? = st.clients[j]? := by
  unfold serviceAt
  cases st.clients[i]? with
  | none => rfl
  | some c => exact List.getElem?_set_ne (Ne.symm hj)

/-- C9.  Per-connection isolation: servicing slot `i` (whatever happens there:
transfer, read or write failure, peer close, idle timeout) leaves every other
slot `j ≠ i` of the table exactly as it was, and appends to the trace calls
among which every `closesocket` is on one of the two handles stored in slot
`i` itself; so no handle of another slot is closed, unless slot `i` holds that
very handle too. -/
theorem serviceAt_isolation (now : Int) (fdsr : SOCKET → Bool) (ro : Nat → RelayOutcome)
    (i : Nat) (st : LoopState) :
    (serviceAt now fdsr ro i st).clients.length = st.clients.length ∧
    (∀ j, j ≠ i → (serviceAt now fdsr ro i st).clients[j]? = st.clients[j]?) ∧
    ∃ ev, (serviceAt now fdsr ro i st).trace = st.trace ++ ev ∧
      (∀ s ∈ closedSockets ev,
        ∃ c, st.clients[i]? = some c ∧ c.inuse = true ∧
          (s = c.client_sock ∨ s = c.out_sock)) ∧
      (∀ j d, j ≠ i → st.clients[j]? = some d →
        (∀ c, st.clients[i]? = some c →
          d.client_sock ≠ c.client_sock ∧ d.client_sock ≠ c.out_sock ∧
          d.out_sock ≠ c.client_sock ∧ d.out_sock ≠ c.out_sock) →
        d.client_sock ∉ closedSockets ev ∧ d.out_sock ∉ closedSockets ev) := by
  cases hc : st.clients[i]? with
  | none =>
    have e : serviceAt now fdsr ro i st = st := by simp [serviceAt, hc]
    rw [e]
    refine ⟨rfl, fun _ _ => rfl, [], by simp, ?_, ?_⟩
    · intro s hs; simp [closedSockets] at hs
    · intro j d _ _ _; simp [closedSockets]
  | some c =>
    have e : serviceAt now fdsr ro i st =
        { clients := st.clients.set i (service now fdsr (ro i) c st.buf).1,
          buf := (service now fdsr (ro i) c st.buf).2.1,
          trace := st.trace ++ (service now fdsr (ro i) c st.buf).2.2 } := by
      simp [serviceAt, hc]
    rw [e]
    have hown := service_closes_own now fdsr (ro i) c st.buf
    refine ⟨by simp, ?_, (service now fdsr (ro i) c st.buf).2.2, rfl, ?_, ?_⟩
    · intro j hj
      exact List.getElem?_set_ne (Ne.symm hj)
    · intro s hs
      exact ⟨c, rfl, (hown s hs).1, (hown s hs).2⟩
    · intro j d _ _ hd
      obtain ⟨d1, d2, d3, d4⟩ := hd c rfl
      constructor
      · intro hmem
        rcases (hown _ hmem).2 with h | h
        · exact d1 h
        · exact d2 h
      · intro hmem
        rcases (hown _ hmem).2 with h | h
        · exact d3 h
        · exact d4 h

/-- C9 at a concrete input: slot 0 of the full table is idle for 1000 seconds
and is evicted; slot 1 is untouched and its handles 12 and 13 are not
closed. -/
theorem serviceAt_isolation_witness :
    (serviceAt 1000 (fun _ => false) (fun _ => ⟨0, [], 0⟩) 0 ⟨fullTable, [], []⟩).clients[1]?
      = fullTable[1]? ∧
    (serviceAt 1000 (fun _ => false) (fun _ => ⟨0, [], 0⟩) 0 ⟨fullTable, [], []⟩).clients[0]?
      = some ⟨false, 10, 11, 0⟩ ∧
    closedSockets
      (serviceAt 1000 (fun _ => false) (fun _ => ⟨0, [], 0⟩) 0 ⟨fullTable, [], []⟩).trace
      = [10, 11] :=
  ⟨(serviceAt_isolation 1000 (fun _ => false) (fun _ => ⟨0, [], 0⟩) 0 ⟨fullTable, [], []⟩).2.1 1
      (by decide),
   by decide, by decide⟩

/-! ## The relayed byte stream (lines 229-236) -/

/-- Servicing a slot never changes its two handles. -/
theorem service_sockets (now : Int) (fdsr : SOCKET → Bool) (ro : RelayOutcome)
    (c : client_t) (buf : List Byte) :
    (service now fdsr ro c buf).1.client_sock = c.client_sock ∧
    (service now fdsr ro c buf).1.out_sock = c.out_sock := by
  unfold service finish
  split_ifs <;> (try simp) <;> (split_ifs <;> simp)

/-- C7 as stated fails: an invalid listener port (`atol` gives 0), an
unresolvable listener address (`inet_addr` gives `INADDR_NONE` and
`gethostbyname` gives `NULL`) and a failed `socket` call are three different
failure classes, and all three end the process with status 20. -/
theorem startup_statuses_not_distinct :
    htons (toUShort 0) = 0 ∧
    startup { goodStartup with atolLPort := 0 } = StartupResult.exit 20 ∧
    htons (toUShort goodStartup.atolLPort) ≠ 0 ∧
    startup { goodStartup with inetLAddr := INADDR_NONE, hostL := none } =
      StartupResult.exit 20 ∧
    startup { goodStartup with sock := -1 } = StartupResult.exit 20 := by
  decide

/-- C7, amended.  With the right number of arguments, each start-up failure
class ends the process with a non-zero status that tells the listener side
from the target side: 20 for an invalid listener port, an unresolvable
listener address and a `socket`, `bind` or `listen` failure; 25 for an invalid
target port and an unresolvable target address. -/
theorem startup_failure_status (o : StartupOutcome) (hargc : o.argc = 5) :
    (htons (toUShort o.atolLPort) = 0 → startup o = StartupResult.exit 20) ∧
    (htons (toUShort o.atolLPort) ≠ 0 → o.inetLAddr = INADDR_NONE → o.hostL = none →
      startup o = StartupResult.exit 20) ∧
    (htons (toUShort o.atolLPort) ≠ 0 → ¬ (o.inetLAddr = INADDR_NONE ∧ o.hostL = none) →
      (htons (toUShort o.atolRPort) = 0 → startup o = StartupResult.exit 25) ∧
      (htons (toUShort o.atolRPort) ≠ 0 → o.inetRAddr = INADDR_NONE → o.hostR = none →
        startup o = StartupResult.exit 25) ∧
      (htons (toUShort o.atolRPort) ≠ 0 → ¬ (o.inetRAddr = INADDR_NONE ∧ o.hostR = none) →
        (o.sock = -1 ∨ o.bindRet ≠ 0 ∨ o.listenRet ≠ 0) →
        startup o = StartupResult.exit 20)) ∧
    StartupResult.exit 20 ≠ StartupResult.exit 0 ∧
    StartupResult.exit 25 ≠ StartupResult.exit 0 ∧
    StartupResult.exit 20 ≠ StartupResult.exit 25 := by
  refine ⟨?_, ?_, ?_, by decide, by decide, by decide⟩
  · intro h; simp [startup, hargc, h]
  · intro h1 h2 h3; simp [startup, hargc, h1, h2, h3]
  · intro h1 h2
    refine ⟨?_, ?_, ?_⟩
    · intro h3; simp only [startup, hargc]; simp [h1, h2, h3]
    · intro h3 h4 h5; simp only [startup, hargc]; simp [h1, h2, h3, h4, h5]
    · intro h3 h4 h5
      simp only [startup, hargc]
      by_cases hs : o.sock = -1
      · simp [h1, h2, h3, h4, hs]
      · by_cases hb : o.bindRet = 0
        · have hl : o.listenRet ≠ 0 := by
            rcases h5 with h | h | h
            · exact absurd h hs
            · exact absurd hb h
            · exact h
          simp [h1, h2, h3, h4, hs, hb, hl]
        · simp [h1, h2, h3, h4, hs, hb]

/-- C7, amended, at a concrete input: the target port string parses to 0, and
the status is 25. -/
theorem startup_failure_status_witness :
    startup { goodStartup with atolRPort := 0 } = StartupResult.exit 25 :=
  ((startup_failure_status { goodStartup with atolRPort := 0 } rfl).2.2.1
    (by decide) (by decide)).1 (by decide)

/-! ## The whole loop -/

set_option maxRecDepth 20000 in
/-- C8 fails on the code when `accept` fails: starting from the all-free table,
one iteration in which the listener is readable, `accept` returns -1 and
`socket`, `bind`, `connect` succeed leaves slot 0 in use with
`client_sock = -1`, the error value, which is not a handle of any socket.
Line 188 does not test what `accept` returned, where line 196 tests what
`socket` returned. -/
theorem accept_error_occupies_slot :
    slotAfter (run 3 [acceptFails] ⟨initialClients, [], []⟩) 0 =
      some { inuse := true, client_sock := -1, out_sock := 4, activity := 1000 } := by
  decide

/-! ## Open descriptors -/

theorem openAfter_append (opn : List SOCKET) (a b : List Event) :
    openAfter opn (a ++ b) = openAfter (openAfter opn a) b := by
  induction a generalizing opn with
  | nil => rfl
  | cons e es ih => cases e <;> simp [openAfter, ih]

theorem freshHandles_append (opn : List SOCKET) (a b : List Event) :
    freshHandles opn (a ++ b) ↔ freshHandles opn a ∧ freshHandles (openAfter opn a) b := by
  induction a generalizing opn with
  | nil => simp [freshHandles, openAfter]
  | cons e es ih => cases e <;> simp [freshHandles, openAfter, ih, and_assoc]

theorem acceptsSucceed_append (a b : List Event) :
    acceptsSucceed (a ++ b) ↔ acceptsSucceed a ∧ acceptsSucceed b := by
  unfold acceptsSucceed
  constructor
  · intro h
    exact ⟨fun s hs => h s (List.mem_append_left _ hs),
           fun s hs => h s (List.mem_append_right _ hs)⟩
  · rintro ⟨h1, h2⟩ s hs
    rcases List.mem_append.mp hs with h | h
    · exact h1 s h
    · exact h2 s h

/-- What a service of slot `c` does to the open descriptors: it closes the
slot's two handles when it frees the slot and leaves them alone otherwise. -/
theorem service_openAfter (now : Int) (fdsr : SOCKET → Bool) (ro : RelayOutcome)
    (c : client_t) (buf : List Byte) (opn : List SOCKET) :
    ((service now fdsr ro c buf).1.inuse = true → c.inuse = true) ∧
    openAfter opn (service now fdsr ro c buf).2.2 =
      (if c.inuse = true ∧ (service now fdsr ro c buf).1.inuse = false then
        (opn.filter fun h => decide (h ≠ c.client_sock)).filter
          fun h => decide (h ≠ c.out_sock)
       else opn) := by
  cases hin : c.inuse with
  | false => simp [service, hin, openAfter]
  | true =>
    by_cases h1 : fdsr c.client_sock = true
    · by_cases hr : ro.recvRet ≤ 0
      · simp [service, finish, transfer, hin, h1, hr, openAfter]
      · by_cases hs : ro.sendRet ≤ 0
        · simp [service, finish, transfer, hin, h1, hr, hs, openAfter]
        · simp [service, finish, transfer, hin, h1, hr, hs, openAfter]
    · by_cases h2 : fdsr c.out_sock = true
      · by_cases hr : ro.recvRet ≤ 0
        · simp [service, finish, transfer, hin, h1, h2, hr, openAfter]
        · by_cases hs : ro.sendRet ≤ 0
          · simp [service, finish, transfer, hin, h1, h2, hr, hs, openAfter]
          · simp [service, finish, transfer, hin, h1, h2, hr, hs, openAfter]
      · by_cases hi : now - c.activity > IDLETIMEOUT
        · simp [service, finish, hin, h1, h2, hi, openAfter]
        · simp [service, finish, hin, h1, h2, hi, openAfter]

/-- One step of the service loop keeps the table invariant. -/
theorem serviceAt_valid (now : Int) (fdsr : SOCKET → Bool) (ro : Nat → RelayOutcome)
    (i : Nat) (st : LoopState) (opn : List SOCKET)
    (hv : tableValid (openAfter opn st.trace) st.clients) :
    tableValid (openAfter opn (serviceAt now fdsr ro i st).trace)
      (serviceAt now fdsr ro i st).clients := by
  cases hc : st.clients[i]? with
  | none =>
    have e : serviceAt now fdsr ro i st = st := by simp [serviceAt, hc]
    rw [e]; exact hv
  | some c =>
    have e : serviceAt now fdsr ro i st =
        { clients := st.clients.set i (service now fdsr (ro i) c st.buf).1,
          buf := (service now fdsr (ro i) c st.buf).2.1,
          trace := st.trace ++ (service now fdsr (ro i) c st.buf).2.2 } := by
      simp [serviceAt, hc]
    rw [e]
    simp only [openAfter_append]
    obtain ⟨hle, hopen⟩ := service_openAfter now fdsr (ro i) c st.buf (openAfter opn st.trace)
    obtain ⟨k1, k2⟩ := service_sockets now fdsr (ro i) c st.buf
    have hilt : i < st.clients.length := (List.getElem?_eq_some.mp hc).1
    rw [hopen]
    intro k e1 hk hin
    by_cases hki : k = i
    · subst hki
      rw [List.getElem?_set_self hilt] at hk
      cases hk
      have hcin := hle hin
      obtain ⟨a1, a2, a3, a4, a5, a6⟩ := hv k c hc hcin
      rw [k1, k2]
      have hne : ¬ (c.inuse = true ∧ (service now fdsr (ro k) c st.buf).1.inuse = false) := by
        rw [hin]; simp
      rw [if_neg hne]
      refine ⟨a1, a2, a3, a4, a5, ?_⟩
      intro j d hj hd hdin
      rw [List.getElem?_set_ne (Ne.symm hj)] at hd
      exact a6 j d hj hd hdin
    · rw [List.getElem?_set_ne (Ne.symm hki)] at hk
      obtain ⟨a1, a2, a3, a4, a5, a6⟩ := hv k e1 hk hin
      refine ⟨a1, a2, ?_, ?_, a5, ?_⟩
      · split
        · rename_i hev
          obtain ⟨b1, b2, b3, b4, b5, b6⟩ := hv i c hc hev.1
          obtain ⟨c1, c2, c3, c4⟩ := b6 k e1 hki hk hin
          simp [a3, c1, c2]
        · exact a3
      · split
        · rename_i hev
          obtain ⟨b1, b2, b3, b4, b5, b6⟩ := hv i c hc hev.1
          obtain ⟨c1, c2, c3, c4⟩ := b6 k e1 hki hk hin
          simp [a4, c3, c4]
        · exact a4
      · intro j d hj hd hdin
        by_cases hji : j = i
        · subst hji
          rw [List.getElem?_set_self hilt] at hd
          cases hd
          rw [k1, k2]
          exact a6 j c hj hc (hle hdin)
        · rw [List.getElem?_set_ne (Ne.symm hji)] at hd
          exact a6 j d hj hd hdin

/-- Servicing a slot never calls `accept`. -/
theorem service_no_accept (now : Int) (fdsr : SOCKET → Bool) (ro : RelayOutcome)
    (c : client_t) (buf : List Byte) (s : SOCKET) :
    Event.accept s ∉ (service now fdsr ro c buf).2.2 := by
  cases hin : c.inuse with
  | false => simp [service, hin]
  | true =>
    by_cases h1 : fdsr c.client_sock = true
    · by_cases hr : ro.recvRet ≤ 0
      · simp [service, finish, transfer, hin, h1, hr]
      · by_cases hs : ro.sendRet ≤ 0
        · simp [service, finish, transfer, hin, h1, hr, hs]
        · simp [service, finish, transfer, hin, h1, hr, hs]
    · by_cases h2 : fdsr c.out_sock = true
      · by_cases hr : ro.recvRet ≤ 0
        · simp [service, finish, transfer, hin, h1, h2, hr]
        · by_cases hs : ro.sendRet ≤ 0
          · simp [service, finish, transfer, hin, h1, h2, hr, hs]
          · simp [service, finish, transfer, hin, h1, h2, hr, hs]
      · by_cases hi : now - c.activity > IDLETIMEOUT
        · simp [service, finish, hin, h1, h2, hi]
        · simp [service, finish, hin, h1, h2, hi]

/-- One step of the service loop only appends calls to the trace, and none of
them is an `accept`. -/
theorem serviceAt_trace (now : Int) (fdsr : SOCKET → Bool) (ro : Nat → RelayOutcome)
    (i : Nat) (st : LoopState) :
    ∃ ev, (serviceAt now fdsr ro i st).trace = st.trace ++ ev ∧
      (∀ s, Event.accept s ∉ ev) := by
  cases hc : st.clients[i]? with
  | none => exact ⟨[], by simp [serviceAt, hc], by simp⟩
  | some c =>
    exact ⟨(service now fdsr (ro i) c st.buf).2.2, by simp [serviceAt, hc],
      fun s => service_no_accept now fdsr (ro i) c st.buf s⟩

/-- The service loop over any list of indices keeps the table invariant. -/
theorem serviceLoop_valid (now : Int) (fdsr : SOCKET → Bool) (ro : Nat → RelayOutcome)
    (opn : List SOCKET) (l : List Nat) (st : LoopState)
    (hv : tableValid (openAfter opn st.trace) st.clients) :
    tableValid (openAfter opn (l.foldl (fun s i => serviceAt now fdsr ro i s) st).trace)
      (l.foldl (fun s i => serviceAt now fdsr ro i s) st).clients := by
  induction l generalizing st with
  | nil => exact hv
  | cons i l ih =>
    simp only [List.foldl_cons]
    exact ih _ (serviceAt_valid now fdsr ro i st opn hv)

/-- The service loop over any list of indices only appends calls to the trace,
none of them an `accept`. -/
theorem serviceLoop_trace (now : Int) (fdsr : SOCKET → Bool) (ro : Nat → RelayOutcome)
    (l : List Nat) (st : LoopState) :
    ∃ ev, (l.foldl (fun s i => serviceAt now fdsr ro i s) st).trace = st.trace ++ ev ∧
      (∀ s, Event.accept s ∉ ev) := by
  induction l generalizing st with
  | nil => exact ⟨[], by simp, by simp⟩
  | cons i l ih =>
    simp only [List.foldl_cons]
    obtain ⟨ev1, h1, n1⟩ := serviceAt_trace now fdsr ro i st
    obtain ⟨ev2, h2, n2⟩ := ih (serviceAt now fdsr ro i st)
    refine ⟨ev1 ++ ev2, by rw [h2, h1, List.append_assoc], ?_⟩
    intro s hs
    rcases List.mem_append.mp hs with h | h
    · exact n1 s h
    · exact n2 s h

/-- The invariant survives any change of the open descriptors that keeps the
handles of the slots in use open. -/
theorem tableValid_of_open (opn opn2 : List SOCKET) (clients : List client_t)
    (hv : tableValid opn clients)
    (hkeep : ∀ (i : Nat) (c : client_t), clients[i]? = some c → c.inuse = true →
      c.client_sock ∈ opn2 ∧ c.out_sock ∈ opn2) :
    tableValid opn2 clients := by
  intro i c hc hin
  obtain ⟨a1, a2, _, _, a5, a6⟩ := hv i c hc hin
  obtain ⟨b1, b2⟩ := hkeep i c hc hin
  exact ⟨a1, a2, b1, b2, a5, a6⟩

/-- The connection acceptance keeps the table invariant, provided `accept` did
not fail and the system handed out fresh descriptors. -/
theorem acceptStep_valid (now : Int) (fdsr : SOCKET → Bool) (l_sock : SOCKET)
    (clients : List client_t) (o : AcceptOutcome) (opn : List SOCKET)
    (hv : tableValid opn clients)
    (hfresh : freshHandles opn (acceptStep now fdsr l_sock clients o).2)
    (hacc : acceptsSucceed (acceptStep now fdsr l_sock clients o).2) :
    tableValid (openAfter opn (acceptStep now fdsr l_sock clients o).2)
      (acceptStep now fdsr l_sock clients o).1 := by
  by_cases hready : fdsr l_sock = true
  swap
  · simp [acceptStep, hready, openAfter]; exact hv
  have hmem : Event.accept o.accepted ∈ (acceptStep now fdsr l_sock clients o).2 := by
    simp only [acceptStep, hready, if_true]
    split_ifs <;> simp
  have ha : o.accepted ≠ -1 := hacc _ hmem
  by_cases hlt : firstFree clients < MAXCLIENTS
  swap
  · simp only [acceptStep, hready, hlt, if_true, if_false] at hfresh ⊢
    simp only [freshHandles, ha, if_false, false_or] at hfresh
    apply tableValid_of_open opn _ clients hv
    intro i c hc hin
    obtain ⟨_, _, a3, a4, _, _⟩ := hv i c hc hin
    have n1 : c.client_sock ≠ o.accepted := fun h => hfresh.1 (h ▸ a3)
    have n2 : c.out_sock ≠ o.accepted := fun h => hfresh.1 (h ▸ a4)
    simp [openAfter, ha, a3, a4, n1, n2]
  by_cases hs : o.sock = -1
  · simp only [acceptStep, hready, hlt, hs, if_true] at hfresh ⊢
    simp only [freshHandles, ha, if_false, false_or] at hfresh
    apply tableValid_of_open opn _ clients hv
    intro i c hc hin
    obtain ⟨_, _, a3, a4, _, _⟩ := hv i c hc hin
    have n1 : c.client_sock ≠ o.accepted := fun h => hfresh.1 (h ▸ a3)
    have n2 : c.out_sock ≠ o.accepted := fun h => hfresh.1 (h ▸ a4)
    simp [openAfter, ha, a3, a4, n1, n2]
  have hfail : ∀ (ev : List Event),
      freshHandles opn (Event.accept o.accepted :: Event.socket o.sock ::
        (ev ++ [Event.closesocket o.accepted, Event.closesocket o.sock])) →
      (∀ opn1, openAfter opn1 ev = opn1) →
      tableValid (openAfter opn (Event.accept o.accepted :: Event.socket o.sock ::
        (ev ++ [Event.closesocket o.accepted, Event.closesocket o.sock]))) clients := by
    intro ev hf hev
    simp only [freshHandles, ha, hs, if_false, false_or] at hf
    apply tableValid_of_open opn _ clients hv
    intro i c hc hin
    obtain ⟨_, _, a3, a4, _, _⟩ := hv i c hc hin
    have n1 : c.client_sock ≠ o.accepted := fun h => hf.1 (h ▸ a3)
    have n2 : c.out_sock ≠ o.accepted := fun h => hf.1 (h ▸ a4)
    have n3 : c.client_sock ≠ o.sock := fun h => hf.2.1 (h ▸ List.mem_cons_of_mem _ a3)
    have n4 : c.out_sock ≠ o.sock := fun h => hf.2.1 (h ▸ List.mem_cons_of_mem _ a4)
    simp [openAfter, openAfter_append, hev, ha, hs, a3, a4, n1, n2, n3, n4]
  by_cases hb : o.bindRet = 0
  swap
  · have e : acceptStep now fdsr l_sock clients o =
        (clients, Event.accept o.accepted :: Event.socket o.sock ::
          ([Event.bind o.sock o.bindRet] ++
            [Event.closesocket o.accepted, Event.closesocket o.sock])) := by
      simp [acceptStep, hready, hlt, hs, hb]
    rw [e] at hfresh ⊢
    exact hfail _ hfresh (fun _ => rfl)
  by_cases hcn : o.connectRet = 0
  swap
  · have e : acceptStep now fdsr l_sock clients o =
        (clients, Event.accept o.accepted :: Event.socket o.sock ::
          ([Event.bind o.sock o.bindRet, Event.connect o.sock o.connectRet] ++
            [Event.closesocket o.accepted, Event.closesocket o.sock])) := by
      simp [acceptStep, hready, hlt, hs, hb, hcn]
    rw [e] at hfresh ⊢
    exact hfail _ hfresh (fun _ => rfl)
  have e : acceptStep now fdsr l_sock clients o =
      (clients.set (firstFree clients)
          { inuse := true, client_sock := o.accepted, out_sock := o.sock, activity := now },
        [Event.accept o.accepted, Event.socket o.sock,
         Event.bind o.sock o.bindRet, Event.connect o.sock o.connectRet]) := by
    simp [acceptStep, hready, hlt, hs, hb, hcn]
  rw [e] at hfresh ⊢
  simp only [freshHandles, ha, hs, if_false, false_or, and_true] at hfresh
  obtain ⟨f1, f2⟩ := hfresh
  have hopen : openAfter opn [Event.accept o.accepted, Event.socket o.sock,
      Event.bind o.sock o.bindRet, Event.connect o.sock o.connectRet] =
      o.sock :: o.accepted :: opn := by
    simp [openAfter, ha, hs]
  rw [hopen]
  have hdiff : ∀ (j : Nat) (d : client_t), clients[j]? = some d → d.inuse = true →
      d.client_sock ≠ o.accepted ∧ d.client_sock ≠ o.sock ∧
      d.out_sock ≠ o.accepted ∧ d.out_sock ≠ o.sock := by
    intro j d hd hdin
    obtain ⟨_, _, a3, a4, _, _⟩ := hv j d hd hdin
    exact ⟨fun h => f1 (h ▸ a3), fun h => f2 (h ▸ List.mem_cons_of_mem _ a3),
           fun h => f1 (h ▸ a4), fun h => f2 (h ▸ List.mem_cons_of_mem _ a4)⟩
  have has : o.accepted ≠ o.sock := fun h => f2 (h ▸ List.mem_cons_self _ _)
  intro k c hk hin
  by_cases hki : k = firstFree clients
  · subst hki
    have hklt : firstFree clients < clients.length := by
      by_contra hge
      rw [List.getElem?_eq_none (by simpa using hge)] at hk
      · cases hk
    rw [List.getElem?_set_self hklt] at hk
    cases hk
    refine ⟨ha, hs, by simp, by simp, has, ?_⟩
    intro j d hj hd hdin
    rw [List.getElem?_set_ne (Ne.symm hj)] at hd
    exact hdiff j d hd hdin
  · rw [List.getElem?_set_ne (Ne.symm hki)] at hk
    obtain ⟨a1, a2, a3, a4, a5, a6⟩ := hv k c hk hin
    refine ⟨a1, a2, by simp [a3], by simp [a4], a5, ?_⟩
    intro j d hj hd hdin
    by_cases hji : j = firstFree clients
    · subst hji
      have hjlt : firstFree clients < clients.length := by
        by_contra hge
        rw [List.getElem?_eq_none (by simpa using hge)] at hd
        · cases hd
      rw [List.getElem?_set_self hjlt] at hd
      cases hd
      obtain ⟨d1, d2, d3, d4⟩ := hdiff k c hk hin
      exact ⟨fun h => d1 h.symm, fun h => d3 h.symm, fun h => d2 h.symm, fun h => d4 h.symm⟩
    · rw [List.getElem?_set_ne (Ne.symm hji)] at hd
      exact a6 j d hj hd hdin

/-- One iteration of the polling loop that does not return keeps the table
invariant and only appends to the trace, provided no `accept` failed and the
system handed out fresh descriptors. -/
theorem iteration_valid (l_sock : SOCKET) (o : IterOutcome) (st st1 : LoopState)
    (opn : List SOCKET)
    (hit : iteration l_sock o st = Except.ok st1) :
    (∃ ev, st1.trace = st.trace ++ ev) ∧
    (tableValid (openAfter opn st.trace) st.clients →
      freshHandles opn st1.trace → acceptsSucceed st1.trace →
      tableValid (openAfter opn st1.trace) st1.clients) := by
  unfold iteration at hit
  by_cases hsel : o.selectRet < 0
  · simp [hsel] at hit
  · simp only [hsel, if_false] at hit
    injection hit with hit
    unfold relayPass at hit
    obtain ⟨ev, hev, _⟩ := serviceLoop_trace o.now
      (selected l_sock st.clients o.readable) o.relay (List.range MAXCLIENTS)
      { clients := (acceptStep o.now (selected l_sock st.clients o.readable) l_sock
          st.clients o.acc).1,
        buf := st.buf,
        trace := st.trace ++ (acceptStep o.now (selected l_sock st.clients o.readable) l_sock
          st.clients o.acc).2 }
    rw [hit] at hev
    simp only at hev
    refine ⟨⟨_, by rw [hev, List.append_assoc]⟩, ?_⟩
    intro hv hfresh hacc
    rw [hev] at hfresh hacc
    rw [freshHandles_append, freshHandles_append] at hfresh
    rw [acceptsSucceed_append, acceptsSucceed_append] at hacc
    have hstep := acceptStep_valid o.now (selected l_sock st.clients o.readable) l_sock
      st.clients o.acc (openAfter opn st.trace) hv hfresh.1.2 hacc.1.2
    rw [← openAfter_append] at hstep
    have hloop := serviceLoop_valid o.now (selected l_sock st.clients o.readable) o.relay opn
      (List.range MAXCLIENTS)
      { clients := (acceptStep o.now (selected l_sock st.clients o.readable) l_sock
          st.clients o.acc).1,
        buf := st.buf,
        trace := st.trace ++ (acceptStep o.now (selected l_sock st.clients o.readable) l_sock
          st.clients o.acc).2 } hstep
    rw [hit] at hloop
    exact hloop

/-- A run of the polling loop that has not returned keeps the table invariant
and only appends to the trace, provided no `accept` failed and the system
handed out fresh descriptors. -/
theorem run_valid (l_sock : SOCKET) (os : List IterOutcome) (st st2 : LoopState)
    (opn : List SOCKET)
    (hrun : run l_sock os st = Except.ok st2) :
    (∃ ev, st2.trace = st.trace ++ ev) ∧
    (tableValid (openAfter opn st.trace) st.clients →
      freshHandles opn st2.trace → acceptsSucceed st2.trace →
      tableValid (openAfter opn st2.trace) st2.clients) := by
  induction os generalizing st with
  | nil =>
    simp only [run] at hrun
    injection hrun with hrun
    subst hrun
    exact ⟨⟨[], by simp⟩, fun hv _ _ => hv⟩
  | cons o os ih =>
    simp only [run] at hrun
    cases hit : iteration l_sock o st with
    | error e => rw [hit] at hrun; cases hrun
    | ok st1 =>
      rw [hit] at hrun
      simp only at hrun
      obtain ⟨⟨ev1, h1⟩, v1⟩ := iteration_valid l_sock o st st1 opn hit
      obtain ⟨⟨ev2, h2⟩, v2⟩ := ih st1 hrun
      refine ⟨⟨ev1 ++ ev2, by rw [h2, h1, List.append_assoc]⟩, ?_⟩
      intro hv hfresh hacc
      have hf1 : freshHandles opn st1.trace := by
        rw [h2, freshHandles_append] at hfresh
        exact hfresh.1
      have ha1 : acceptsSucceed st1.trace := by
        rw [h2, acceptsSucceed_append] at hacc
        exact hacc.1
      exact v2 (v1 hv hf1 ha1) hfresh hacc

/-- Every slot of the initial table is free. -/
theorem initialClients_free : ∀ c ∈ initialClients, c.inuse = false := by
  decide

/-- The invariant behind C8, with the failure of `accept` excluded: in every
state reached from the all-free table by any number of loop iterations, if no
`accept` returned -1 and the system never returned a descriptor that was
already open, both handles of every slot in use are non-error handles that
are open after the calls made so far. -/
theorem run_occupied_sockets_open (l_sock : SOCKET) (os : List IterOutcome)
    (buf : List Byte) (opn : List SOCKET) (st : LoopState)
    (hrun : run l_sock os ⟨initialClients, buf, []⟩ = Except.ok st)
    (hfresh : freshHandles opn st.trace) (hacc : acceptsSucceed st.trace) :
    ∀ (i : Nat) (c : client_t), st.clients[i]? = some c → c.inuse = true →
      c.client_sock ≠ -1 ∧ c.out_sock ≠ -1 ∧
      c.client_sock ∈ openAfter opn st.trace ∧ c.out_sock ∈ openAfter opn st.trace := by
  have hinit : tableValid (openAfter opn []) initialClients := by
    intro i c hc hin
    have := initialClients_free c (List.getElem?_mem hc)
    rw [this] at hin
    cases hin
  have hv := (run_valid l_sock os ⟨initialClients, buf, []⟩ st opn hrun).2 hinit hfresh hacc
  intro i c hc hin
  obtain ⟨a1, a2, a3, a4, _, _⟩ := hv i c hc hin
  exact ⟨a1, a2, a3, a4⟩

set_option maxRecDepth 20000 in
/-- The iteration `acceptWorks` leads from the all-free table to
`afterAcceptWorks`. -/
theorem run_acceptWorks :
    run 3 [acceptWorks] ⟨initialClients, [], []⟩ = Except.ok afterAcceptWorks := by
  rfl

/-- The invariant at a concrete run: with only the listener 3 open at the
start, after `acceptWorks` slot 0 holds the open handles 4 and 5. -/
theorem run_occupied_sockets_open_witness :
    (4 : Int) ≠ -1 ∧ (5 : Int) ≠ -1 ∧
    (4 : Int) ∈ openAfter [3] afterAcceptWorks.trace ∧
    (5 : Int) ∈ openAfter [3] afterAcceptWorks.trace :=
  run_occupied_sockets_open 3 [acceptWorks] [] [3] afterAcceptWorks run_acceptWorks
    (by simp [afterAcceptWorks, freshHandles])
    (by intro s hs; simp [afterAcceptWorks] at hs; subst hs; decide)
    0 ⟨true, 4, 5, 1000⟩ (by decide) rfl

/-! ## One slot inside the whole loop -/

/-- What a service makes of the slot does not depend on what `buf` held. -/
theorem service_slot_buf (now : Int) (fdsr : SOCKET → Bool) (ro : RelayOutcome)
    (c : client_t) (buf buf2 : List Byte) :
    (service now fdsr ro c buf).1 = (service now fdsr ro c buf2).1 := by
  cases hin : c.inuse with
  | false => simp [service, hin]
  | true =>
    by_cases h1 : fdsr c.client_sock = true
    · by_cases hr : ro.recvRet ≤ 0
      · simp [service, finish, transfer, hin, h1, hr]
      · by_cases hs : ro.sendRet ≤ 0
        · simp [service, finish, transfer, hin, h1, hr, hs]
        · simp [service, finish, transfer, hin, h1, hr, hs]
    · by_cases h2 : fdsr c.out_sock = true
      · by_cases hr : ro.recvRet ≤ 0
        · simp [service, finish, transfer, hin, h1, h2, hr]
        · by_cases hs : ro.sendRet ≤ 0
          · simp [service, finish, transfer, hin, h1, h2, hr, hs]
          · simp [service, finish, transfer, hin, h1, h2, hr, hs]
      · by_cases hi : now - c.activity > IDLETIMEOUT
        · simp [service, finish, hin, h1, h2, hi]
        · simp [service, finish, hin, h1, h2, hi]

/-- The service loop over indices other than `i` leaves slot `i` alone. -/
theorem serviceLoop_other (now : Int) (fdsr : SOCKET → Bool) (ro : Nat → RelayOutcome)
    (i : Nat) (l : List Nat) (st : LoopState) (hi : i ∉ l) :
    (l.foldl (fun s k => serviceAt now fdsr ro k s) st).clients[i]? = st.clients[i]? := by
  induction l generalizing st with
  | nil => rfl
  | cons k l ih =>
    simp only [List.foldl_cons]
    have hk : i ≠ k := fun h => hi (h ▸ List.mem_cons_self _ _)
    rw [ih _ (fun h => hi (List.mem_cons_of_mem _ h))]
    exact serviceAt_other now fdsr ro k i st hk

/-- The step of the service loop at an index that holds slot `c`. -/
theorem serviceAt_some (now : Int) (fdsr : SOCKET → Bool) (ro : Nat → RelayOutcome)
    (i : Nat) (c : client_t) (st : LoopState) (hc : st.clients[i]? = some c) :
    serviceAt now fdsr ro i st =
      { clients := st.clients.set i (service now fdsr (ro i) c st.buf).1,
        buf := (service now fdsr (ro i) c st.buf).2.1,
        trace := st.trace ++ (service now fdsr (ro i) c st.buf).2.2 } := by
  unfold serviceAt
  rw [hc]

/-- In a pass of the service loop, a slot below `MAXCLIENTS` is serviced once,
by `service` on the slot as it was at the start of the pass: the slot after
the pass is the slot `service` returns, and the calls `service` makes for it
are a contiguous part of the trace. -/
theorem relayPass_slot (now : Int) (fdsr : SOCKET → Bool) (ro : Nat → RelayOutcome)
    (i : Nat) (c : client_t) (st : LoopState)
    (hi : i < MAXCLIENTS) (hc : st.clients[i]? = some c) :
    ∃ buf pre post,
      (relayPass now fdsr ro st).clients[i]? = some (service now fdsr (ro i) c buf).1 ∧
      (relayPass now fdsr ro st).trace =
        st.trace ++ pre ++ (service now fdsr (ro i) c buf).2.2 ++ post := by
  have hmem : i ∈ List.range MAXCLIENTS := List.mem_range.mpr hi
  obtain ⟨l1, l2, hl⟩ := List.append_of_mem hmem
  have hnd : (l1 ++ i :: l2).Nodup := hl ▸ List.nodup_range MAXCLIENTS
  have hn1 : i ∉ l1 := fun h =>
    (List.nodup_append.mp hnd).2.2 h (List.mem_cons_self _ _)
  have hn2 : i ∉ l2 :=
    (List.nodup_cons.mp (List.nodup_append.mp hnd).2.1).1
  unfold relayPass
  rw [hl, List.foldl_append, List.foldl_cons]
  have hc1 := serviceLoop_other now fdsr ro i l1 st hn1
  rw [hc] at hc1
  obtain ⟨pre, hpre, _⟩ := serviceLoop_trace now fdsr ro l1 st
  generalize l1.foldl (fun s k => serviceAt now fdsr ro k s) st = S at hc1 hpre ⊢
  have hstep := serviceAt_some now fdsr ro i c S hc1
  obtain ⟨post, hpost, _⟩ := serviceLoop_trace now fdsr ro l2 (serviceAt now fdsr ro i S)
  refine ⟨S.buf, pre, post, ?_, ?_⟩
  · rw [serviceLoop_other now fdsr ro i l2 _ hn2, hstep]
    have hilt : i < S.clients.length := (List.getElem?_eq_some.mp hc1).1
    simp [List.getElem?_set_self hilt]
  · rw [hpost, hstep]
    simp only
    rw [hpre]

/-- The connection acceptance either leaves the table as it was or writes the
slot at the index the scan stopped at, which is then below `MAXCLIENTS`. -/
theorem acceptStep_table (now : Int) (fdsr : SOCKET → Bool) (l_sock : SOCKET)
    (clients : List client_t) (o : AcceptOutcome) :
    (acceptStep now fdsr l_sock clients o).1 = clients ∨
    (firstFree clients < MAXCLIENTS ∧
      (acceptStep now fdsr l_sock clients o).1 =
        clients.set (firstFree clients)
          { inuse := true, client_sock := o.accepted, out_sock := o.sock, activity := now }) := by
  by_cases hready : fdsr l_sock = true
  swap
  · left; simp [acceptStep, hready]
  by_cases hlt : firstFree clients < MAXCLIENTS
  swap
  · left; simp [acceptStep, hready, hlt]
  by_cases hs : o.sock = -1
  · left; simp [acceptStep, hready, hlt, hs]
  by_cases hb : o.bindRet = 0
  swap
  · left; simp [acceptStep, hready, hlt, hs, hb]
  by_cases hcn : o.connectRet = 0
  swap
  · left; simp [acceptStep, hready, hlt, hs, hb, hcn]
  right
  exact ⟨hlt, by simp [acceptStep, hready, hlt, hs, hb, hcn]⟩

/-- The connection acceptance never touches a slot that is in use. -/
theorem acceptStep_keeps_inuse (now : Int) (fdsr : SOCKET → Bool) (l_sock : SOCKET)
    (clients : List client_t) (o : AcceptOutcome) (i : Nat) (c : client_t)
    (hc : clients[i]? = some c) (hin : c.inuse = true) :
    (acceptStep now fdsr l_sock clients o).1[i]? = some c := by
  rcases acceptStep_table now fdsr l_sock clients o with h | ⟨hlt, h⟩
  · rw [h]; exact hc
  · rw [h]
    have hne : firstFree clients ≠ i := by
      intro heq
      obtain ⟨_, _, _, h4⟩ := scanFree_spec clients MAXCLIENTS 0
      obtain ⟨d, hd, hdin⟩ := h4 (by unfold firstFree at hlt; omega)
      unfold firstFree at heq
      rw [heq, hc] at hd
      cases hd
      rw [hin] at hdin
      cases hdin
    rw [List.getElem?_set_ne hne]
    exact hc

/-- One iteration of the polling loop treats a slot that is in use as one pass
of `slotRun`: the slot afterwards is what `service` makes of it, with the time
and descriptor set of the iteration and the outcomes of the slot's own calls,
and the calls `service` makes for it are a contiguous part of the trace. -/
theorem iteration_slot (l_sock : SOCKET) (o : IterOutcome) (st st1 : LoopState)
    (i : Nat) (c : client_t) (hi : i < MAXCLIENTS)
    (hc : st.clients[i]? = some c) (hin : c.inuse = true)
    (hit : iteration l_sock o st = Except.ok st1) :
    ∃ buf pre post,
      st1.clients[i]? =
        some (slotRun c [⟨o.now, selected l_sock st.clients o.readable, o.relay i, buf⟩]).1 ∧
      st1.trace = st.trace ++ pre ++
        (slotRun c [⟨o.now, selected l_sock st.clients o.readable, o.relay i, buf⟩]).2 ++
        post := by
  unfold iteration at hit
  by_cases hsel : o.selectRet < 0
  · simp [hsel] at hit
  · simp only [hsel, if_false] at hit
    injection hit with hit
    have hkeep := acceptStep_keeps_inuse o.now (selected l_sock st.clients o.readable) l_sock
      st.clients o.acc i c hc hin
    obtain ⟨buf, pre, post, h1, h2⟩ := relayPass_slot o.now
      (selected l_sock st.clients o.readable) o.relay i c
      { clients := (acceptStep o.now (selected l_sock st.clients o.readable) l_sock
          st.clients o.acc).1,
        buf := st.buf,
        trace := st.trace ++ (acceptStep o.now (selected l_sock st.clients o.readable) l_sock
          st.clients o.acc).2 } hi hkeep
    rw [hit] at h1 h2
    refine ⟨buf, (acceptStep o.now (selected l_sock st.clients o.readable) l_sock
      st.clients o.acc).2 ++ pre, post, ?_, ?_⟩
    · simpa [slotRun] using h1
    · simp only [slotRun, List.append_nil]
      rw [h2]
      simp [List.append_assoc]

/-- A slot that stays in use through a sequence of passes is in use at its
start. -/
theorem staysInUse_inuse (c : client_t) (ps : List PassInput)
    (h : staysInUse c ps = true) : c.inuse = true := by
  cases ps with
  | nil => simpa [staysInUse] using h
  | cons p ps =>
    simp only [staysInUse, Bool.and_eq_true] at h
    exact h.1

/-- A run of the polling loop treats a slot that is in use as `slotRun` does:
there is one pass per iteration, with the time of that iteration and the
outcomes of the slot's own calls, such that, when the slot stays in use
through these passes, the slot after the run is the slot `slotRun` returns and
the calls `slotRun` lists are, in the same order, among the calls the run
appended to the trace. -/
theorem run_slot (l_sock : SOCKET) (os : List IterOutcome) (st st2 : LoopState)
    (i : Nat) (c : client_t) (hi : i < MAXCLIENTS)
    (hc : st.clients[i]? = some c) (hin : c.inuse = true)
    (hrun : run l_sock os st = Except.ok st2) :
    ∃ ps : List PassInput,
      ps.map (fun p => p.now) = os.map (fun o => o.now) ∧
      ps.map (fun p => p.ro) = os.map (fun o => o.relay i) ∧
      (staysInUse c ps = true →
        st2.clients[i]? = some (slotRun c ps).1 ∧
        ∃ rest, st2.trace = st.trace ++ rest ∧ List.Sublist (slotRun c ps).2 rest) := by
  induction os generalizing st c with
  | nil =>
    simp only [run] at hrun
    injection hrun with hrun
    subst hrun
    exact ⟨[], rfl, rfl, fun _ => ⟨hc, [], by simp, by simp [slotRun]⟩⟩
  | cons o os ih =>
    simp only [run] at hrun
    cases hit : iteration l_sock o st with
    | error e => rw [hit] at hrun; cases hrun
    | ok st1 =>
      rw [hit] at hrun
      simp only at hrun
      obtain ⟨buf, pre, post, h1, h2⟩ := iteration_slot l_sock o st st1 i c hi hc hin hit
      simp only [slotRun, List.append_nil] at h1 h2
      cases hin1 : (service o.now (selected l_sock st.clients o.readable) (o.relay i) c
          buf).1.inuse with
      | false =>
        refine ⟨⟨o.now, selected l_sock st.clients o.readable, o.relay i, buf⟩ ::
          os.map (fun o2 => ⟨o2.now, fun _ => false, o2.relay i, []⟩), ?_, ?_, ?_⟩
        · simp [List.map_map, Function.comp_def]
        · simp [List.map_map, Function.comp_def]
        · intro hstay
          simp only [staysInUse, Bool.and_eq_true] at hstay
          have := staysInUse_inuse _ _ hstay.2
          rw [hin1] at this
          cases this
      | true =>
        obtain ⟨ps, m1, m2, hrest⟩ := ih st1 _ h1 hin1 hrun
        refine ⟨⟨o.now, selected l_sock st.clients o.readable, o.relay i, buf⟩ :: ps,
          by simp [m1], by simp [m2], ?_⟩
        intro hstay
        simp only [staysInUse, Bool.and_eq_true] at hstay
        obtain ⟨r1, rest, r2, r3⟩ := hrest hstay.2
        refine ⟨by simpa [slotRun] using r1, pre ++
          (service o.now (selected l_sock st.clients o.readable) (o.relay i) c buf).2.2 ++
          post ++ rest, ?_, ?_⟩
        · rw [r2, h2]; simp [List.append_assoc]
        · simp only [slotRun]
          have s1 : List.Sublist
              (service o.now (selected l_sock st.clients o.readable) (o.relay i) c buf).2.2
              (pre ++
                (service o.now (selected l_sock st.clients o.readable) (o.relay i) c buf).2.2 ++
                post) :=
            List.Sublist.trans (List.sublist_append_right pre _) (List.sublist_append_left _ post)
          exact List.Sublist.append s1 r3

end Redirector
